import Mathlib

/-!
Shallow embedding of the conversation-memory coordination logic of
`src/agent.py` (gumabot).  Pure Python functions become Lean functions;
the session event handlers become state-transition functions; remote calls
(the MemU client and the HTTP status endpoint) are abstracted as
per-attempt oracles supplied as arguments, and `asyncio.sleep` calls are
recorded in a trace so that retry budgets and delays can be reasoned about.
-/

namespace Gumabot

/-- A memory category as returned by the remote store.  Both fields are
optional, mirroring the duck-typed `extract_value(item, key)` access of
`agent.py`, where an absent key or attribute yields `None`. -/
structure Category where
  name : Option String
  summary : Option String
deriving DecidableEq, Repr

/-- The retrieval result shape `\x7b'categories': [...]\x7d` of `agent.py`. -/
structure Memories where
  categories : List Category
deriving DecidableEq, Repr

/-- The key argument of `extract_value`. -/
inductive CatKey where
  | name
  | summary
deriving DecidableEq, Repr

/-- `extract_value(item, key)` of `agent.py`: dict/attribute lookup that
yields `None` when the key is absent. -/
def extract_value (item : Category) : CatKey → Option String
  | .name => item.name
  | .summary => item.summary

/-- `extract_categories(memories)` of `agent.py`: the category list of the
response (empty when the response is empty or has no such key). -/
def extract_categories (memories : Memories) : List Category :=
  memories.categories

/-- The header line opening the memory context block in
`build_system_prompt_with_memories`. -/
def MEMORY_HEADER : String := "\n\n以下是关于用户的信息：\n\n"

/-- Python truthiness of `extract_value(category, 'summary')`: the summary
is present and non-empty. -/
def hasSummary (category : Category) : Bool :=
  ((extract_value category .summary).getD "") != ""

/-- `extract_value(category, 'name') or '未知分类'` of `agent.py` (Python
`or` falls through on `None` and on the empty string). -/
def nameOrDefault (category : Category) : String :=
  match extract_value category .name with
  | some n => if n == "" then "未知分类" else n
  | none => "未知分类"

/-- One rendered line of the memory block:
`f"**\x7bcategory_name\x7d:** \x7bcategory_summary\x7d\n\n"`. -/
def renderBlock (category : Category) : String :=
  "**" ++ nameOrDefault category ++ ":** " ++
    ((extract_value category .summary).getD "") ++ "\n\n"

/-- One step of the accumulation loop in `build_system_prompt_with_memories`:
appends the rendered line and bumps `added_categories` exactly when the
category has a truthy summary. -/
def addCategory (acc : String × Nat) (category : Category) : String × Nat :=
  match extract_value category .summary with
  | some category_summary =>
      if category_summary ≠ "" then
        (acc.1 ++ renderBlock category, acc.2 + 1)
      else acc
  | none => acc

/-- `build_system_prompt_with_memories(base_instructions, memories)` of
`agent.py`: when at least one category carries a non-empty summary, the
base instructions are extended by a memory-context block (the header plus
one rendered line per summarised category, in retrieval order); otherwise
the base instructions are returned unchanged. -/
def build_system_prompt_with_memories (base_instructions : String)
    (memories : Memories) : String :=
  let system_prompt := base_instructions
  let categories := extract_categories memories
  if categories.isEmpty then system_prompt
  else
    let res := categories.foldl addCategory (MEMORY_HEADER, 0)
    if res.2 > 0 then system_prompt ++ res.1 else system_prompt

/-- The categories whose summary is present and non-empty, in retrieval
order. -/
def summaryCats (memories : Memories) : List Category :=
  (extract_categories memories).filter (fun c => hasSummary c)

/-- Concatenation of a list of rendered lines. -/
def concatBlocks : List String → String
  | [] => ""
  | b :: rest => b ++ concatBlocks rest

/-- The memory appendix that rendering adds after the base instructions:
empty when no category carries a summary, else the header followed by one
rendered line per summarised category, in retrieval order. -/
def memoryAppendix (memories : Memories) : String :=
  if summaryCats memories = [] then ""
  else MEMORY_HEADER ++ concatBlocks ((summaryCats memories).map renderBlock)

lemma foldl_addCategory (cats : List Category) (acc : String) (n : Nat) :
    cats.foldl addCategory (acc, n) =
      (acc ++ concatBlocks ((cats.filter (fun c => hasSummary c)).map renderBlock),
       n + (cats.filter (fun c => hasSummary c)).length) := by
  induction cats generalizing acc n with
  | nil => simp [concatBlocks]
  | cons c rest ih =>
    simp only [List.foldl_cons, List.filter_cons]
    by_cases h : hasSummary c
    · have hs : ∃ s, extract_value c .summary = some s ∧ s ≠ "" := by
        unfold hasSummary at h
        cases hv : extract_value c .summary with
        | none => simp [hv] at h
        | some s =>
          refine ⟨s, rfl, ?_⟩
          simp [hv] at h
          simpa using h
      obtain ⟨s, hv, hne⟩ := hs
      simp only [h, if_pos]
      rw [show addCategory (acc, n) c = (acc ++ renderBlock c, n + 1) by
        unfold addCategory; rw [hv]; simp [hne]]
      rw [ih]
      simp [concatBlocks, String.append_assoc, Nat.add_assoc, Nat.add_comm 1]
    · have hstep : addCategory (acc, n) c = (acc, n) := by
        unfold addCategory
        unfold hasSummary at h
        cases hv : extract_value c .summary with
        | none => rfl
        | some s =>
          simp [hv] at h
          simp [h]
      simp only [h, if_neg, Bool.false_eq_true, not_false_iff]
      rw [hstep, ih]

lemma build_eq_appendix (base : String) (m : Memories) :
    build_system_prompt_with_memories base m = base ++ memoryAppendix m := by
  unfold build_system_prompt_with_memories memoryAppendix summaryCats
  by_cases hc : (extract_categories m).isEmpty
  · have : extract_categories m = [] := List.isEmpty_iff.mp hc
    simp [hc, this]
  · simp only [hc, if_neg, Bool.false_eq_true, not_false_iff]
    rw [foldl_addCategory]
    by_cases hf : (extract_categories m).filter (fun c => hasSummary c) = []
    · simp [hf, concatBlocks]
    · have hlen : 0 < ((extract_categories m).filter (fun c => hasSummary c)).length :=
        List.length_pos.mpr hf
      simp [hf, hlen, String.append_assoc]

/-- A flattened role/content message, as stored in `conversation_buffer`
and `full_conversation` and sent to the remote store. -/
structure Message where
  role : String
  content : String
deriving DecidableEq, Repr

/-- The `content` attribute of a `conversation_item_added` payload after
`getattr`: absent (`None`), a plain string, or a list of strings that the
handler joins. -/
inductive ItemContent where
  | absent
  | str (s : String)
  | list (xs : List String)
deriving DecidableEq, Repr

/-- The `isinstance(content, list)` join step (`''.join(content)`) of the
handler, followed by the `None` check: the string the handler works with,
or `none` when the payload has no usable content. -/
def normalizeContent : ItemContent → Option String
  | .absent => none
  | .str s => some s
  | .list xs => some (String.join xs)

/-- Python truthiness of `content.strip()`: the string strips to a
non-empty string exactly when it contains a non-whitespace character. -/
def pyStripTruthy (s : String) : Bool :=
  s.data.any (fun ch => !ch.isWhitespace)

/-- The mutable session-local state captured by the closures in
`entrypoint`: the two pending utterance slots, the two conversation lists,
the turn counter, and (as an observation of `asyncio.create_task` calls)
the list of payloads dispatched to `save_conversation_to_memu`. -/
structure SessionState where
  current_user_message : Option String
  current_agent_message : Option String
  conversation_buffer : List Message
  full_conversation : List Message
  turn_count : Nat
  submissions : List (List Message)
deriving DecidableEq, Repr

/-- The session state at the start of `entrypoint`. -/
def initState : SessionState :=
  ⟨none, none, [], [], 0, []⟩

/-- The `conversation_item_added` handler of `agent.py`: ignores payloads
without usable content; records a user utterance in the pending slot
(overwriting any previous one); on an agent utterance with a pending user
utterance, appends the matched pair to both conversation lists, clears the
pending slots, and — when the buffer holds at least 4 messages — dispatches
`full_conversation.copy()` to `save_conversation_to_memu` and clears the
buffer. -/
def on_conversation_item_added (st : SessionState) (role : String)
    (content : ItemContent) : SessionState :=
  match normalizeContent content with
  | none => st
  | some c =>
    if pyStripTruthy c then
      if role = "user" then
        { st with current_user_message := some c }
      else if role = "assistant" then
        let st1 := { st with current_agent_message := some c }
        if st1.current_user_message.getD "" ≠ "" then
          let conversation_context : List Message :=
            [⟨"user", st1.current_user_message.getD ""⟩, ⟨"assistant", c⟩]
          let buf := st1.conversation_buffer ++ conversation_context
          let full := st1.full_conversation ++ conversation_context
          let st2 : SessionState :=
            { current_user_message := none
              current_agent_message := none
              conversation_buffer := buf
              full_conversation := full
              turn_count := st1.turn_count + 1
              submissions := st1.submissions }
          if 4 ≤ st2.conversation_buffer.length then
            { st2 with
                submissions := st2.submissions ++ [st2.full_conversation]
                conversation_buffer := [] }
          else st2
        else st1
      else st
    else st

/-- The `close` handler of `agent.py`: when `full_conversation` holds at
least 4 messages, dispatch `full_conversation.copy()` as one final
submission and clear both conversation lists; otherwise do nothing. -/
def on_session_close (st : SessionState) : SessionState :=
  if 4 ≤ st.full_conversation.length then
    { st with
        submissions := st.submissions ++ [st.full_conversation]
        conversation_buffer := []
        full_conversation := [] }
  else st

/-- Processing an event sequence from the initial session state. -/
def runSession (events : List (String × ItemContent)) : SessionState :=
  events.foldl (fun st e => on_conversation_item_added st e.1 e.2) initState

lemma step_submissions (st : SessionState) (role : String) (content : ItemContent) :
    (on_conversation_item_added st role content).submissions = st.submissions ∨
      ((on_conversation_item_added st role content).submissions
          = st.submissions ++ [(on_conversation_item_added st role content).full_conversation]
        ∧ (on_conversation_item_added st role content).conversation_buffer = []) := by
  unfold on_conversation_item_added
  cases h : normalizeContent content with
  | none => left; rfl
  | some c =>
    by_cases hs : pyStripTruthy c
    · by_cases hu : role = "user"
      · left; simp [hs, hu]
      · by_cases ha : role = "assistant"
        · by_cases hp : st.current_user_message.getD "" ≠ ""
          · by_cases hb : 4 ≤ st.conversation_buffer.length + 2
            · right
              constructor <;> simp [hs, hu, ha, hp, hb]
            · left; simp [hs, hu, ha, hp, hb]
          · left; simp [hs, hu, ha, hp]
        · left; simp [hs, hu, ha]
    · left; simp [hs]

lemma step_full_grows (st : SessionState) (role : String) (content : ItemContent) :
    ∃ t, st.full_conversation ++ t
      = (on_conversation_item_added st role content).full_conversation := by
  unfold on_conversation_item_added
  cases h : normalizeContent content with
  | none => exact ⟨[], List.append_nil _⟩
  | some c =>
    by_cases hs : pyStripTruthy c
    · by_cases hu : role = "user"
      · exact ⟨[], by simp [hs, hu]⟩
      · by_cases ha : role = "assistant"
        · by_cases hp : st.current_user_message.getD "" ≠ ""
          · by_cases hb : 4 ≤ st.conversation_buffer.length + 2
            · exact ⟨[⟨"user", st.current_user_message.getD ""⟩, ⟨"assistant", c⟩],
                by simp [hs, hu, ha, hp, hb]⟩
            · exact ⟨[⟨"user", st.current_user_message.getD ""⟩, ⟨"assistant", c⟩],
                by simp [hs, hu, ha, hp, hb]⟩
          · exact ⟨[], by simp [hs, hu, ha, hp]⟩
        · exact ⟨[], by simp [hs, hu, ha]⟩
    · exact ⟨[], by simp [hs]⟩

/-- The invariant C1 is settled through: every dispatched payload is an
initial segment of the current full conversation, and payloads of earlier
submissions are initial segments of later ones. -/
def PayloadInv (st : SessionState) : Prop :=
  (∀ p ∈ st.submissions, ∃ t, p ++ t = st.full_conversation) ∧
    List.Pairwise (fun p q => ∃ t, p ++ t = q) st.submissions

lemma payloadInv_step (st : SessionState) (role : String) (content : ItemContent)
    (h : PayloadInv st) :
    PayloadInv (on_conversation_item_added st role content) := by
  obtain ⟨h1, h2⟩ := h
  obtain ⟨t0, hfull⟩ := step_full_grows st role content
  obtain heq | ⟨hadd, _⟩ := step_submissions st role content
  · refine ⟨?_, heq ▸ h2⟩
    intro p hp
    rw [heq] at hp
    obtain ⟨t, ht⟩ := h1 p hp
    exact ⟨t ++ t0, by rw [← List.append_assoc, ht, hfull]⟩
  · constructor
    · intro p hp
      rw [hadd] at hp
      rcases List.mem_append.mp hp with hp | hp
      · obtain ⟨t, ht⟩ := h1 p hp
        exact ⟨t ++ t0, by rw [← List.append_assoc, ht, hfull]⟩
      · rw [List.mem_singleton.mp hp]
        exact ⟨[], List.append_nil _⟩
    · rw [hadd]
      refine List.pairwise_append.mpr ⟨h2, List.pairwise_singleton _ _, ?_⟩
      intro p hp q hq
      rw [List.mem_singleton.mp hq]
      obtain ⟨t, ht⟩ := h1 p hp
      exact ⟨t ++ t0, by rw [← List.append_assoc, ht, hfull]⟩

lemma payloadInv_run (events : List (String × ItemContent)) :
    PayloadInv (runSession events) := by
  suffices h : ∀ st, PayloadInv st →
      PayloadInv (events.foldl (fun st e => on_conversation_item_added st e.1 e.2) st) by
    exact h initState ⟨by simp [initState], by simp [initState]⟩
  induction events with
  | nil => intro st hst; exact hst
  | cons e rest ih =>
    intro st hst
    exact ih _ (payloadInv_step st e.1 e.2 hst)

lemma step_turn_iff (st : SessionState) (role : String) (content : ItemContent) :
    (on_conversation_item_added st role content).turn_count = st.turn_count + 1 ↔
      role = "assistant" ∧ ∃ c, normalizeContent content = some c ∧
        pyStripTruthy c = true ∧ st.current_user_message.getD "" ≠ "" := by
  unfold on_conversation_item_added
  cases h : normalizeContent content with
  | none => simp [h]
  | some c =>
    by_cases hs : pyStripTruthy c
    · by_cases hu : role = "user"
      · simp [hs, hu]
      · by_cases ha : role = "assistant"
        · by_cases hp : st.current_user_message.getD "" ≠ ""
          · by_cases hb : 4 ≤ st.conversation_buffer.length + 2
            · simp [hs, hu, ha, hp, hb]
            · simp [hs, hu, ha, hp, hb]
          · simp [hs, hu, ha, hp]
        · simp [hs, hu, ha]
    · simp [hs]

lemma step_turn_payload (st : SessionState) (role : String) (content : ItemContent)
    (c : String) (hc : normalizeContent content = some c) (hs : pyStripTruthy c = true)
    (ha : role = "assistant") (hp : st.current_user_message.getD "" ≠ "") :
    (on_conversation_item_added st role content).full_conversation
      = st.full_conversation
          ++ [⟨"user", st.current_user_message.getD ""⟩, ⟨"assistant", c⟩] := by
  unfold on_conversation_item_added
  have hu : role ≠ "user" := by rw [ha]; decide
  by_cases hb : 4 ≤ st.conversation_buffer.length + 2
  · simp [hc, hs, hu, ha, hp, hb]
  · simp [hc, hs, hu, ha, hp, hb]

lemma step_user_overwrites (st : SessionState) (content : ItemContent)
    (c : String) (hc : normalizeContent content = some c) (hs : pyStripTruthy c = true) :
    (on_conversation_item_added st "user" content).current_user_message = some c := by
  unfold on_conversation_item_added
  simp [hc, hs]

lemma step_assistant_clears (st : SessionState) (content : ItemContent)
    (c : String) (hc : normalizeContent content = some c) (hs : pyStripTruthy c = true) :
    (on_conversation_item_added st "assistant" content).current_user_message.getD "" = "" := by
  unfold on_conversation_item_added
  by_cases hp : st.current_user_message.getD "" ≠ ""
  · by_cases hb : 4 ≤ st.conversation_buffer.length + 2
    · simp [hc, hs, hp, hb]
    · simp [hc, hs, hp, hb]
  · push_neg at hp
    simp [hc, hs, hp]

/-- The concrete event sequence refuting C1 and exercising two threshold
dispatches: four complete turns, so the buffer reaches 4 messages after
the second turn and again after the fourth. -/
def cexEvents : List (String × ItemContent) :=
  [("user", .str "u1"), ("assistant", .str "a1"),
   ("user", .str "u2"), ("assistant", .str "a2"),
   ("user", .str "u3"), ("assistant", .str "a3"),
   ("user", .str "u4"), ("assistant", .str "a4")]

/-- Claim C1, counterexample: running four complete turns makes the handler
dispatch twice, and the first turn's messages appear in both payloads, so
the payload is not "exactly the turns accumulated since the last
submission" and a turn does appear in more than one submission payload
(the handler submits `full_conversation.copy()`, not the buffer). -/
theorem C1_counterexample :
    (runSession cexEvents).submissions.length = 2 ∧
    (⟨"user", "u1"⟩ : Message) ∈ (runSession cexEvents).submissions.getD 0 [] ∧
    (⟨"user", "u1"⟩ : Message) ∈ (runSession cexEvents).submissions.getD 1 [] ∧
    (runSession cexEvents).submissions.getD 1 []
      ≠ [⟨"user", "u3"⟩, ⟨"assistant", "a3"⟩, ⟨"user", "u4"⟩, ⟨"assistant", "a4"⟩] := by
  decide

/-- Claim C1 (amended): when the threshold check fires, the handler
dispatches a snapshot of the *entire conversation since session start*
(of which every earlier payload is an initial segment, so turns recur
across payloads), and clears the live buffer at dispatch time. -/
theorem C1_submission_payloads (events : List (String × ItemContent))
    (st : SessionState) (role : String) (content : ItemContent) :
    (∀ p ∈ (runSession events).submissions,
        ∃ t, p ++ t = (runSession events).full_conversation) ∧
    List.Pairwise (fun p q => ∃ t, p ++ t = q) (runSession events).submissions ∧
    ((on_conversation_item_added st role content).submissions ≠ st.submissions →
      (on_conversation_item_added st role content).submissions
          = st.submissions ++ [(on_conversation_item_added st role content).full_conversation]
        ∧ (on_conversation_item_added st role content).conversation_buffer = []) := by
  obtain ⟨h1, h2⟩ := payloadInv_run events
  refine ⟨h1, h2, ?_⟩
  intro hne
  obtain heq | hadd := step_submissions st role content
  · exact absurd heq hne
  · exact hadd

/-- Claim C2: a turn is counted (and its two messages appended to the
conversation) exactly when an agent utterance with non-blank content is
processed while a user utterance is pending; a user utterance overwrites
any pending one; after a processed agent utterance the pending user slot
is blank, so a second consecutive agent utterance forms no turn.  The
handler is a total function, so no case raises. -/
theorem C2_turn_accumulator (st : SessionState) (role : String) (content : ItemContent) :
    ((on_conversation_item_added st role content).turn_count = st.turn_count + 1 ↔
      role = "assistant" ∧ ∃ c, normalizeContent content = some c ∧
        pyStripTruthy c = true ∧ st.current_user_message.getD "" ≠ "") ∧
    (∀ c, normalizeContent content = some c → pyStripTruthy c = true →
      role = "assistant" → st.current_user_message.getD "" ≠ "" →
      (on_conversation_item_added st role content).full_conversation
        = st.full_conversation
            ++ [⟨"user", st.current_user_message.getD ""⟩, ⟨"assistant", c⟩]) ∧
    (∀ c, normalizeContent content = some c → pyStripTruthy c = true →
      (on_conversation_item_added st "user" content).current_user_message = some c) ∧
    (∀ c, normalizeContent content = some c → pyStripTruthy c = true →
      ∀ content2,
        ¬ (on_conversation_item_added
            (on_conversation_item_added st "assistant" content) "assistant" content2).turn_count
          = (on_conversation_item_added st "assistant" content).turn_count + 1) := by
  refine ⟨step_turn_iff st role content,
    fun c hc hs ha hp => step_turn_payload st role content c hc hs ha hp,
    fun c hc hs => step_user_overwrites st content c hc hs,
    fun c hc hs content2 h => ?_⟩
  obtain ⟨-, c2, -, -, hp2⟩ := (step_turn_iff _ "assistant" content2).mp h
  exact hp2 (step_assistant_clears st content c hc hs)

/-- Claim C8, counterexample: a session closing with exactly one buffered
turn (two messages, which is at least one buffered turn) dispatches no
final submission, because the close handler requires
`len(full_conversation) >= 4`. -/
theorem C8_counterexample :
    (runSession [("user", .str "hello"), ("assistant", .str "hi")]).conversation_buffer ≠ [] ∧
    (runSession [("user", .str "hello"), ("assistant", .str "hi")]).full_conversation.length = 2 ∧
    (on_session_close
        (runSession [("user", .str "hello"), ("assistant", .str "hi")])).submissions = [] := by
  decide

/-- Claim C8 (amended): on session close, exactly one final submission —
carrying the entire accumulated conversation — is dispatched if and only
if the full conversation holds at least 4 messages (2 turns); below that,
teardown dispatches nothing and leaves the state unchanged. -/
theorem C8_close_flush (st : SessionState) :
    (4 ≤ st.full_conversation.length →
      (on_session_close st).submissions = st.submissions ++ [st.full_conversation] ∧
      (on_session_close st).conversation_buffer = [] ∧
      (on_session_close st).full_conversation = []) ∧
    (st.full_conversation.length < 4 → on_session_close st = st) := by
  constructor
  · intro h
    unfold on_session_close
    simp [h]
  · intro h
    unfold on_session_close
    simp [Nat.not_le.mpr h]

/-- The agent object: the only field the memory layer touches is the
mutable `instructions` string. -/
structure Assistant where
  instructions : String
deriving DecidableEq, Repr

/-- `retrieve_user_memories(user_id, agent_id)` of `agent.py`.
`clientConfigured` models `memu_client` being non-`None`; `remote` models
the outcome of the `retrieve_default_categories` call (a result, or a
raised exception carried as `Except.error`).  The function itself never
raises: without a client, and on any remote error, it returns the empty
category set. -/
def retrieve_user_memories (clientConfigured : Bool)
    (remote : Except String Memories) : Memories :=
  if clientConfigured = false then ⟨[]⟩
  else
    match remote with
    | .ok memories => memories
    | .error _ => ⟨[]⟩

/-- The response of `memorize_conversation`: `task_id` read by
`getattr(response, 'task_id', 'N/A')`, hence optional. -/
structure MemorizeResponse where
  task_id : Option String
deriving DecidableEq, Repr

/-- What `save_conversation_to_memu` did: whether an exception escaped to
the caller, whether the remote memorize call was reached, the task id of
the refresh cycle scheduled by `asyncio.create_task` (if any), and the
assistant object as the function leaves it. -/
structure SaveOutcome where
  raised : Bool
  memorizeCalled : Bool
  scheduled : Option String
  assistant : Option Assistant
deriving DecidableEq, Repr

/-- `save_conversation_to_memu(conversation, user_id, agent_id, assistant,
base_instructions)` of `agent.py`: skips everything without a client;
otherwise calls the remote memorize endpoint (outcome supplied as
`memorize`), and on success schedules a refresh cycle keyed by the task id
(defaulting to `"N/A"`) when both `assistant` and `base_instructions` are
truthy.  The whole body runs inside `try/except`, so an exception from the
remote call is swallowed, schedules nothing, and the function never
assigns `assistant.instructions`. -/
def save_conversation_to_memu (clientConfigured : Bool) (conversation : List Message)
    (memorize : Except String MemorizeResponse) (assistant : Option Assistant)
    (base_instructions : Option String) : SaveOutcome :=
  if clientConfigured = false then
    ⟨false, false, none, assistant⟩
  else
    match memorize with
    | .error _ => ⟨false, true, none, assistant⟩
    | .ok response =>
        let task_id := response.task_id.getD "N/A"
        if assistant.isSome ∧ base_instructions.getD "" ≠ "" then
          ⟨false, true, some task_id, assistant⟩
        else
          ⟨false, true, none, assistant⟩

/-- One status-polling attempt's environment: the parsed status response
(`resp.json()` when the request succeeded and was `ok`, else `None`), and
what `retrieve_user_memories` would return if invoked on this attempt. -/
structure PollObs where
  status : Option String
  memories : Memories

/-- Observable outcome of one refresh cycle: the final value of
`assistant.instructions`, whether it was assigned, how many status
requests and retrievals were made, and the `asyncio.sleep` delays
executed. -/
structure RefreshTrace where
  instructions : String
  updated : Bool
  statusPolls : Nat
  retrievals : Nat
  sleeps : List ℚ
deriving DecidableEq, Repr

/-- Default of the `attempts` parameter of
`refresh_memories_and_update_prompt_with_task`. -/
def DEFAULT_POLL_ATTEMPTS : Nat := 10

/-- Default of the `delay` parameter (2.0 seconds). -/
def DEFAULT_POLL_DELAY : ℚ := 2

/-- The retry loop of `refresh_memories_and_update_prompt_fallback`:
each attempt retrieves (oracle `fb`, indexed by attempt), filters the
categories with a truthy summary, and either assigns the rebuilt prompt
and returns, or sleeps `delay` and retries. -/
def refresh_fallback_loop (fb : Nat → Memories) (delay : ℚ)
    (base_instructions : String) (a : Assistant) : Nat → Nat → RefreshTrace
  | _, 0 => ⟨a.instructions, false, 0, 0, []⟩
  | i, b + 1 =>
    let memories := fb i
    if (summaryCats memories).isEmpty then
      let rest := refresh_fallback_loop fb delay base_instructions a (i + 1) b
      ⟨rest.instructions, rest.updated, rest.statusPolls, rest.retrievals + 1,
        delay :: rest.sleeps⟩
    else
      ⟨build_system_prompt_with_memories base_instructions memories, true, 0, 1, []⟩

/-- `refresh_memories_and_update_prompt_fallback(user_id, agent_id,
assistant, base_instructions, attempts, delay)` of `agent.py` (no default
for `attempts`: each caller passes its own). -/
def refresh_memories_and_update_prompt_fallback (fb : Nat → Memories) (a : Assistant)
    (base_instructions : String) (attempts : Nat) (delay : ℚ) : RefreshTrace :=
  refresh_fallback_loop fb delay base_instructions a 0 attempts

/-- The polling loop of `refresh_memories_and_update_prompt_with_task`:
each attempt requests the task status; when the parsed response equals
`"completed"` it retrieves immediately and, if any category carries a
summary, assigns the rebuilt prompt and returns; in every other case it
sleeps `delay` and retries.  When the budget is exhausted it runs the
fallback with a budget of 5. -/
def refresh_with_task_loop (poll : Nat → PollObs) (fb : Nat → Memories) (delay : ℚ)
    (base_instructions : String) (a : Assistant) : Nat → Nat → RefreshTrace
  | _, 0 => refresh_memories_and_update_prompt_fallback fb a base_instructions 5 delay
  | i, b + 1 =>
    let obs := poll i
    if obs.status = some "completed" then
      if (summaryCats obs.memories).isEmpty then
        let rest := refresh_with_task_loop poll fb delay base_instructions a (i + 1) b
        ⟨rest.instructions, rest.updated, rest.statusPolls + 1, rest.retrievals + 1,
          delay :: rest.sleeps⟩
      else
        ⟨build_system_prompt_with_memories base_instructions obs.memories, true, 1, 1, []⟩
    else
      let rest := refresh_with_task_loop poll fb delay base_instructions a (i + 1) b
      ⟨rest.instructions, rest.updated, rest.statusPolls + 1, rest.retrievals,
        delay :: rest.sleeps⟩

/-- `refresh_memories_and_update_prompt_with_task(task_id, user_id,
agent_id, assistant, base_instructions, attempts=10, delay=2.0)` of
`agent.py`: without an API key it delegates directly to the fallback,
passing its own `attempts` budget; otherwise it runs the polling loop. -/
def refresh_memories_and_update_prompt_with_task (hasKey : Bool) (poll : Nat → PollObs)
    (fb : Nat → Memories) (a : Assistant) (base_instructions : String)
    (attempts : Nat) (delay : ℚ) : RefreshTrace :=
  if hasKey = false then
    refresh_memories_and_update_prompt_fallback fb a base_instructions attempts delay
  else
    refresh_with_task_loop poll fb delay base_instructions a 0 attempts

lemma fallback_loop_statusPolls (fb : Nat → Memories) (delay : ℚ) (base : String)
    (a : Assistant) (i b : Nat) :
    (refresh_fallback_loop fb delay base a i b).statusPolls = 0 := by
  induction b generalizing i with
  | zero => rfl
  | succ b ih =>
    unfold refresh_fallback_loop
    by_cases h : (summaryCats (fb i)).isEmpty <;> simp [h, ih]

lemma fallback_loop_retrievals (fb : Nat → Memories) (delay : ℚ) (base : String)
    (a : Assistant) (i b : Nat) :
    (refresh_fallback_loop fb delay base a i b).retrievals ≤ b := by
  induction b generalizing i with
  | zero => exact Nat.le_refl 0
  | succ b ih =>
    unfold refresh_fallback_loop
    by_cases h : (summaryCats (fb i)).isEmpty
    · simpa [h] using Nat.succ_le_succ (ih (i + 1))
    · simp [h]

lemma fallback_loop_sleeps (fb : Nat → Memories) (delay : ℚ) (base : String)
    (a : Assistant) (i b : Nat) :
    ∀ d ∈ (refresh_fallback_loop fb delay base a i b).sleeps, d = delay := by
  induction b generalizing i with
  | zero => intro d hd; simp [refresh_fallback_loop] at hd
  | succ b ih =>
    intro d hd
    unfold refresh_fallback_loop at hd
    by_cases h : (summaryCats (fb i)).isEmpty
    · simp only [h, if_pos] at hd
      rcases List.mem_cons.mp hd with h1 | h1
      · exact h1
      · exact ih (i + 1) d h1
    · simp [h] at hd

lemma fallback_loop_instructions (fb : Nat → Memories) (delay : ℚ) (base : String)
    (a : Assistant) (i b : Nat) :
    ((refresh_fallback_loop fb delay base a i b).updated = false ∧
      (refresh_fallback_loop fb delay base a i b).instructions = a.instructions) ∨
    ((refresh_fallback_loop fb delay base a i b).updated = true ∧
      ∃ m, summaryCats m ≠ [] ∧
        (refresh_fallback_loop fb delay base a i b).instructions
          = build_system_prompt_with_memories base m) := by
  induction b generalizing i with
  | zero => left; exact ⟨rfl, rfl⟩
  | succ b ih =>
    unfold refresh_fallback_loop
    by_cases h : (summaryCats (fb i)).isEmpty
    · simpa [h] using ih (i + 1)
    · right
      refine ⟨by simp [h], fb i, ?_, by simp [h]⟩
      simpa using h

lemma fallback_loop_no_summaries (fb : Nat → Memories) (delay : ℚ) (base : String)
    (a : Assistant) (hfb : ∀ i, summaryCats (fb i) = []) (i b : Nat) :
    refresh_fallback_loop fb delay base a i b
      = ⟨a.instructions, false, 0, b, List.replicate b delay⟩ := by
  induction b generalizing i with
  | zero => rfl
  | succ b ih =>
    unfold refresh_fallback_loop
    simp [hfb i, ih (i + 1), List.replicate_succ]

lemma with_task_loop_statusPolls (poll : Nat → PollObs) (fb : Nat → Memories) (delay : ℚ)
    (base : String) (a : Assistant) (i b : Nat) :
    (refresh_with_task_loop poll fb delay base a i b).statusPolls ≤ b := by
  induction b generalizing i with
  | zero =>
    simpa [refresh_with_task_loop, refresh_memories_and_update_prompt_fallback] using
      Nat.le_of_eq (fallback_loop_statusPolls fb delay base a 0 5)
  | succ b ih =>
    unfold refresh_with_task_loop
    by_cases h : (poll i).status = some "completed"
    · by_cases h2 : (summaryCats (poll i).memories).isEmpty
      · simpa [h, h2] using Nat.succ_le_succ (ih (i + 1))
      · simp [h, h2]
    · simpa [h] using Nat.succ_le_succ (ih (i + 1))

lemma with_task_loop_sleeps (poll : Nat → PollObs) (fb : Nat → Memories) (delay : ℚ)
    (base : String) (a : Assistant) (i b : Nat) :
    ∀ d ∈ (refresh_with_task_loop poll fb delay base a i b).sleeps, d = delay := by
  induction b generalizing i with
  | zero =>
    intro d hd
    exact fallback_loop_sleeps fb delay base a 0 5 d hd
  | succ b ih =>
    intro d hd
    unfold refresh_with_task_loop at hd
    by_cases h : (poll i).status = some "completed"
    · by_cases h2 : (summaryCats (poll i).memories).isEmpty
      · simp only [h, h2, if_pos] at hd
        rcases List.mem_cons.mp hd with h1 | h1
        · exact h1
        · exact ih (i + 1) d h1
      · simp [h, h2] at hd
    · simp only [h, if_neg, if_pos] at hd
      rcases List.mem_cons.mp hd with h1 | h1
      · exact h1
      · exact ih (i + 1) d h1

lemma with_task_loop_no_completed (poll : Nat → PollObs) (fb : Nat → Memories) (delay : ℚ)
    (base : String) (a : Assistant) (hp : ∀ j, (poll j).status ≠ some "completed")
    (i b : Nat) :
    (refresh_with_task_loop poll fb delay base a i b).retrievals
      = (refresh_memories_and_update_prompt_fallback fb a base 5 delay).retrievals := by
  induction b generalizing i with
  | zero => rfl
  | succ b ih =>
    unfold refresh_with_task_loop
    simp [hp i, ih (i + 1)]

lemma with_task_loop_instructions (poll : Nat → PollObs) (fb : Nat → Memories) (delay : ℚ)
    (base : String) (a : Assistant) (i b : Nat) :
    ((refresh_with_task_loop poll fb delay base a i b).updated = false ∧
      (refresh_with_task_loop poll fb delay base a i b).instructions = a.instructions) ∨
    ((refresh_with_task_loop poll fb delay base a i b).updated = true ∧
      ∃ m, summaryCats m ≠ [] ∧
        (refresh_with_task_loop poll fb delay base a i b).instructions
          = build_system_prompt_with_memories base m) := by
  induction b generalizing i with
  | zero => exact fallback_loop_instructions fb delay base a 0 5
  | succ b ih =>
    unfold refresh_with_task_loop
    by_cases h : (poll i).status = some "completed"
    · by_cases h2 : (summaryCats (poll i).memories).isEmpty
      · simpa [h, h2] using ih (i + 1)
      · right
        refine ⟨by simp [h, h2], (poll i).memories, ?_, by simp [h, h2]⟩
        simpa using h2
    · simpa [h] using ih (i + 1)

lemma with_task_loop_no_summaries (poll : Nat → PollObs) (fb : Nat → Memories) (delay : ℚ)
    (base : String) (a : Assistant)
    (hpoll : ∀ j, summaryCats (poll j).memories = [])
    (hfb : ∀ j, summaryCats (fb j) = []) (i b : Nat) :
    (refresh_with_task_loop poll fb delay base a i b).instructions = a.instructions ∧
    (refresh_with_task_loop poll fb delay base a i b).updated = false := by
  induction b generalizing i with
  | zero =>
    constructor <;>
      simp [refresh_with_task_loop, refresh_memories_and_update_prompt_fallback,
        fallback_loop_no_summaries fb delay base a hfb 0 5]
  | succ b ih =>
    unfold refresh_with_task_loop
    by_cases h : (poll i).status = some "completed"
    · simpa [h, hpoll i] using ih (i + 1)
    · simpa [h] using ih (i + 1)

lemma with_task_loop_first_success (poll : Nat → PollObs) (fb : Nat → Memories) (delay : ℚ)
    (base : String) (a : Assistant) :
    ∀ k i b, k < b →
      (poll (i + k)).status = some "completed" →
      summaryCats (poll (i + k)).memories ≠ [] →
      (∀ j, j < k → ¬((poll (i + j)).status = some "completed" ∧
        summaryCats (poll (i + j)).memories ≠ [])) →
      (refresh_with_task_loop poll fb delay base a i b).statusPolls = k + 1 ∧
      (refresh_with_task_loop poll fb delay base a i b).updated = true ∧
      (refresh_with_task_loop poll fb delay base a i b).instructions
        = build_system_prompt_with_memories base (poll (i + k)).memories := by
  intro k
  induction k with
  | zero =>
    intro i b hb hst hsum _
    obtain ⟨b', rfl⟩ := Nat.exists_eq_add_of_lt hb
    simp only [Nat.add_zero] at hst hsum
    unfold refresh_with_task_loop
    have h2 : ¬ (summaryCats (poll i).memories).isEmpty := by
      simpa using hsum
    simp [hst, h2]
  | succ k ih =>
    intro i b hb hst hsum hprev
    obtain ⟨b', rfl⟩ := Nat.exists_eq_add_of_lt hb
    have hik : i + 1 + k = i + (k + 1) := by omega
    have hfirst : ¬((poll i).status = some "completed" ∧
        summaryCats (poll i).memories ≠ []) := by
      simpa using hprev 0 (Nat.succ_pos k)
    have hrec := ih (i + 1) (k + 1 + b')
      (by omega)
      (by rw [hik]; exact hst)
      (by rw [hik]; exact hsum)
      (by
        intro j hj
        have h3 := hprev (j + 1) (Nat.succ_lt_succ hj)
        have hij : i + 1 + j = i + (j + 1) := by omega
        rw [hij]
        exact h3)
    have hrec2 : (refresh_with_task_loop poll fb delay base a (i + 1) (k + 1 + b')).instructions
        = build_system_prompt_with_memories base (poll (i + (k + 1))).memories := by
      rw [← hik]
      exact hrec.2.2
    unfold refresh_with_task_loop
    by_cases h : (poll i).status = some "completed"
    · have h2 : (summaryCats (poll i).memories).isEmpty := by
        by_contra h2
        exact hfirst ⟨h, by simpa using h2⟩
      simp [h, h2, hrec.1, hrec.2.1, hrec2]
    · simp [h, hrec.1, hrec.2.1, hrec2]

/-- The polling environment refuting C3: attempt 0 reports "completed" but
the retrieval carries no summary, attempt 1 reports "completed" with a
summarised category. -/
def cexPoll : Nat → PollObs := fun i =>
  if i = 0 then ⟨some "completed", ⟨[]⟩⟩
  else ⟨some "completed", ⟨[⟨some "Profile", some "coding"⟩]⟩⟩

/-- Claim C3, counterexample: the very first status check reports the
terminal "completed" state, yet the refresher polls a second time (because
the retrieval after the first "completed" carried no summaries), so it
does not stop polling as soon as status reports "completed". -/
theorem C3_counterexample :
    (cexPoll 0).status = some "completed" ∧
    (refresh_memories_and_update_prompt_with_task true cexPoll (fun _ => ⟨[]⟩)
        ⟨"prev"⟩ "base" DEFAULT_POLL_ATTEMPTS DEFAULT_POLL_DELAY).statusPolls = 2 := by
  constructor
  · rfl
  · decide

/-- Claim C3 (amended): with the defaults, the refresher polls the status
endpoint at most 10 times with a fixed 2-second delay between attempts;
when a status check reports "completed" it immediately retrieves within
that same attempt, and it stops polling at the first attempt whose status
is "completed" *and* whose retrieval yields a summarised category, updating
the prompt from that retrieval. -/
theorem C3_status_polling (poll : Nat → PollObs) (fb : Nat → Memories)
    (a : Assistant) (base : String) :
    (refresh_memories_and_update_prompt_with_task true poll fb a base
        DEFAULT_POLL_ATTEMPTS DEFAULT_POLL_DELAY).statusPolls ≤ DEFAULT_POLL_ATTEMPTS ∧
    (∀ d ∈ (refresh_memories_and_update_prompt_with_task true poll fb a base
        DEFAULT_POLL_ATTEMPTS DEFAULT_POLL_DELAY).sleeps, d = DEFAULT_POLL_DELAY) ∧
    (∀ k, k < DEFAULT_POLL_ATTEMPTS →
      (poll k).status = some "completed" →
      summaryCats (poll k).memories ≠ [] →
      (∀ j, j < k → ¬((poll j).status = some "completed" ∧
        summaryCats (poll j).memories ≠ [])) →
      (refresh_memories_and_update_prompt_with_task true poll fb a base
          DEFAULT_POLL_ATTEMPTS DEFAULT_POLL_DELAY).statusPolls = k + 1 ∧
      (refresh_memories_and_update_prompt_with_task true poll fb a base
          DEFAULT_POLL_ATTEMPTS DEFAULT_POLL_DELAY).updated = true ∧
      (refresh_memories_and_update_prompt_with_task true poll fb a base
          DEFAULT_POLL_ATTEMPTS DEFAULT_POLL_DELAY).instructions
        = build_system_prompt_with_memories base (poll k).memories) := by
  refine ⟨?_, ?_, ?_⟩
  · simpa [refresh_memories_and_update_prompt_with_task] using
      with_task_loop_statusPolls poll fb DEFAULT_POLL_DELAY base a 0 DEFAULT_POLL_ATTEMPTS
  · simpa [refresh_memories_and_update_prompt_with_task] using
      with_task_loop_sleeps poll fb DEFAULT_POLL_DELAY base a 0 DEFAULT_POLL_ATTEMPTS
  · intro k hk hst hsum hprev
    have h := with_task_loop_first_success poll fb DEFAULT_POLL_DELAY base a k 0
      DEFAULT_POLL_ATTEMPTS hk (by simpa using hst) (by simpa using hsum)
      (by intro j hj; simpa using hprev j hj)
    simpa [refresh_memories_and_update_prompt_with_task] using h

/-- Claim C4, counterexample: when no API key is configured, the refresher
delegates to the fallback with its *own* default attempts budget (10), so
with no summaries available the fallback performs 10 direct retrievals,
refuting "at most 5 times (default)". -/
theorem C4_counterexample :
    5 < (refresh_memories_and_update_prompt_with_task false (fun _ => ⟨none, ⟨[]⟩⟩)
        (fun _ => ⟨[]⟩) ⟨"prev"⟩ "base" DEFAULT_POLL_ATTEMPTS DEFAULT_POLL_DELAY).retrievals ∧
    (refresh_memories_and_update_prompt_with_task false (fun _ => ⟨none, ⟨[]⟩⟩)
        (fun _ => ⟨[]⟩) ⟨"prev"⟩ "base" DEFAULT_POLL_ATTEMPTS DEFAULT_POLL_DELAY).retrievals
      = 10 := by
  constructor <;> decide

/-- Claim C4 (amended): the fallback retrieves at most its attempts budget;
after status-polling exhausts its attempts without any "completed" status,
the fallback runs with a budget of 5, so at most 5 retrievals happen; but
when no status endpoint is available the fallback inherits the polling
attempts parameter (default 10) instead of 5. -/
theorem C4_fallback_attempts (poll : Nat → PollObs) (fb : Nat → Memories)
    (a : Assistant) (base : String) (attempts : Nat) (delay : ℚ) :
    (refresh_memories_and_update_prompt_fallback fb a base attempts delay).retrievals
        ≤ attempts ∧
    refresh_memories_and_update_prompt_with_task false poll fb a base attempts delay
        = refresh_memories_and_update_prompt_fallback fb a base attempts delay ∧
    ((∀ j, (poll j).status ≠ some "completed") →
      (refresh_memories_and_update_prompt_with_task true poll fb a base attempts delay).retrievals
        ≤ 5) := by
  refine ⟨fallback_loop_retrievals fb delay base a 0 attempts, rfl, ?_⟩
  intro hp
  have h := with_task_loop_no_completed poll fb delay base a hp 0 attempts
  have h5 := fallback_loop_retrievals fb delay base a 0 5
  simpa [refresh_memories_and_update_prompt_with_task, h,
    refresh_memories_and_update_prompt_fallback] using h5

/-- Claim C5: a refresh cycle in which no retrieval — during status polling
or during the fallback — ever yields a category with a non-empty summary
terminates with `assistant.instructions` never assigned, equal to its value
from before the cycle began. -/
theorem C5_exhausted_cycle_keeps_prompt (hasKey : Bool) (poll : Nat → PollObs)
    (fb : Nat → Memories) (a : Assistant) (base : String) (attempts : Nat) (delay : ℚ)
    (hpoll : ∀ i, summaryCats (poll i).memories = [])
    (hfb : ∀ i, summaryCats (fb i) = []) :
    (refresh_memories_and_update_prompt_with_task hasKey poll fb a base attempts delay).instructions
        = a.instructions ∧
    (refresh_memories_and_update_prompt_with_task hasKey poll fb a base attempts delay).updated
        = false := by
  unfold refresh_memories_and_update_prompt_with_task
  by_cases hk : hasKey = false
  · simp only [hk, if_pos]
    constructor <;>
      simp [refresh_memories_and_update_prompt_fallback,
        fallback_loop_no_summaries fb delay base a hfb 0 attempts]
  · simp only [hk, if_neg, Bool.false_eq_true, not_false_iff]
    exact with_task_loop_no_summaries poll fb delay base a hpoll hfb 0 attempts

/-- Witness for C5: the cycle run at a concrete environment with no
summaries anywhere leaves the previous prompt in place. -/
theorem C5_witness :
    (refresh_memories_and_update_prompt_with_task true (fun _ => ⟨none, ⟨[]⟩⟩)
        (fun _ => ⟨[]⟩) ⟨"prev"⟩ "base" DEFAULT_POLL_ATTEMPTS DEFAULT_POLL_DELAY).instructions
        = "prev" ∧
    (refresh_memories_and_update_prompt_with_task true (fun _ => ⟨none, ⟨[]⟩⟩)
        (fun _ => ⟨[]⟩) ⟨"prev"⟩ "base" DEFAULT_POLL_ATTEMPTS DEFAULT_POLL_DELAY).updated
        = false :=
  C5_exhausted_cycle_keeps_prompt true (fun _ => ⟨none, ⟨[]⟩⟩) (fun _ => ⟨[]⟩)
    ⟨"prev"⟩ "base" DEFAULT_POLL_ATTEMPTS DEFAULT_POLL_DELAY
    (fun _ => rfl) (fun _ => rfl)

/-- Claim C6: prompt rendering appends, after the base instructions, the
header plus exactly one rendered block per category with a non-empty
summary, in retrieval order, skipping categories whose summary is empty or
missing; when no category has a summary it returns the base instructions
unchanged.  Determinism is inherent: it is a pure function of
`(base_instructions, memories)`. -/
theorem C6_render (base : String) (m : Memories) :
    build_system_prompt_with_memories base m = base ++ memoryAppendix m ∧
    memoryAppendix m = (if summaryCats m = [] then ""
      else MEMORY_HEADER ++ concatBlocks ((summaryCats m).map renderBlock)) ∧
    (summaryCats m = [] → build_system_prompt_with_memories base m = base) := by
  refine ⟨build_eq_appendix base m, rfl, ?_⟩
  intro h
  rw [build_eq_appendix base m]
  simp [memoryAppendix, h]

/-- Claim C7: memory retrieval is total and fails soft — on any remote
error it returns the empty category set — and with no client configured
(missing credentials) retrieval returns the empty set and saving skips the
remote call entirely, raising nothing and scheduling nothing. -/
theorem C7_fail_soft (remote : Except String Memories) (e : String)
    (conversation : List Message) (memorize : Except String MemorizeResponse)
    (assistant : Option Assistant) (base_instructions : Option String) :
    retrieve_user_memories false remote = ⟨[]⟩ ∧
    (remote = .error e → retrieve_user_memories true remote = ⟨[]⟩) ∧
    (save_conversation_to_memu false conversation memorize assistant
        base_instructions).memorizeCalled = false ∧
    (save_conversation_to_memu false conversation memorize assistant
        base_instructions).raised = false ∧
    (save_conversation_to_memu false conversation memorize assistant
        base_instructions).scheduled = none := by
  refine ⟨rfl, ?_, rfl, rfl, rfl⟩
  intro h
  rw [h]
  rfl

/-- Claim C10: the submission operation never propagates an exception; when
the remote memorize call raises, no refresh cycle is scheduled and the
assistant object (hence its `instructions` field) is left untouched; and a
refresh cycle is scheduled only in the success path of the remote call. -/
theorem C10_submission_error_handling (clientConfigured : Bool)
    (conversation : List Message) (memorize : Except String MemorizeResponse)
    (assistant : Option Assistant) (base_instructions : Option String) (e : String) :
    (save_conversation_to_memu clientConfigured conversation memorize assistant
        base_instructions).raised = false ∧
    (save_conversation_to_memu clientConfigured conversation memorize assistant
        base_instructions).assistant = assistant ∧
    (memorize = .error e →
      (save_conversation_to_memu clientConfigured conversation memorize assistant
          base_instructions).scheduled = none) ∧
    (∀ t, (save_conversation_to_memu clientConfigured conversation memorize assistant
        base_instructions).scheduled = some t → ∃ r, memorize = .ok r) := by
  unfold save_conversation_to_memu
  by_cases hc : clientConfigured = false
  · simp [hc]
  · simp only [hc, if_neg, Bool.false_eq_true, not_false_iff]
    cases memorize with
    | error err => simp
    | ok response =>
      by_cases hs : assistant.isSome ∧ base_instructions.getD "" ≠ ""
      · simp [hs]
      · simp [hs]

/-- The environment of one refresh cycle (whether the API key is present,
the status and retrieval oracles, and the budget parameters). -/
structure CycleEnv where
  hasKey : Bool
  poll : Nat → PollObs
  fb : Nat → Memories
  attempts : Nat
  delay : ℚ

/-- Running a sequence of refresh cycles against the same base
instructions: each cycle reads the assistant's current instructions and —
exactly as in `agent.py` — rebuilds any update from `base_instructions`,
never from the current prompt. -/
def runRefreshCycles (base_instructions : String) :
    Assistant → List CycleEnv → Assistant
  | a, [] => a
  | a, e :: rest =>
      runRefreshCycles base_instructions
        ⟨(refresh_memories_and_update_prompt_with_task e.hasKey e.poll e.fb a
            base_instructions e.attempts e.delay).instructions⟩
        rest

lemma refresh_with_task_instructions (hasKey : Bool) (poll : Nat → PollObs)
    (fb : Nat → Memories) (a : Assistant) (base : String) (attempts : Nat) (delay : ℚ) :
    (refresh_memories_and_update_prompt_with_task hasKey poll fb a base attempts
        delay).instructions = a.instructions ∨
    ∃ m, summaryCats m ≠ [] ∧
      (refresh_memories_and_update_prompt_with_task hasKey poll fb a base attempts
          delay).instructions = build_system_prompt_with_memories base m := by
  unfold refresh_memories_and_update_prompt_with_task
  by_cases hk : hasKey = false
  · simp only [hk, if_pos]
    rcases fallback_loop_instructions fb delay base a 0 attempts with ⟨-, h⟩ | ⟨-, h⟩
    · left
      simpa [refresh_memories_and_update_prompt_fallback] using h
    · right
      simpa [refresh_memories_and_update_prompt_fallback] using h
  · simp only [hk, if_neg, Bool.false_eq_true, not_false_iff]
    rcases with_task_loop_instructions poll fb delay base a 0 attempts with ⟨-, h⟩ | ⟨-, h⟩
    · left; exact h
    · right; exact h

lemma runRefreshCycles_instructions (base : String) (cycles : List CycleEnv)
    (a : Assistant) :
    (runRefreshCycles base a cycles).instructions = a.instructions ∨
    ∃ m, summaryCats m ≠ [] ∧
      (runRefreshCycles base a cycles).instructions
        = build_system_prompt_with_memories base m := by
  induction cycles generalizing a with
  | nil => left; rfl
  | cons e rest ih =>
    unfold runRefreshCycles
    rcases ih ⟨(refresh_memories_and_update_prompt_with_task e.hasKey e.poll e.fb a
        base e.attempts e.delay).instructions⟩ with h | ⟨m, hm, h⟩
    · rw [h]
      exact refresh_with_task_instructions e.hasKey e.poll e.fb a base e.attempts e.delay
    · right
      exact ⟨m, hm, h⟩

/-- Claim C9: after any sequence of refresh cycles, the instruction string
is either untouched or equals the base instructions followed by the memory
appendix rendered from one retrieval — the appendix of the last successful
cycle wholly replaces earlier ones, the base occurs exactly once, and each
summarised category contributes exactly one rendered block (the appendix is
the header plus the concatenation of one block per summarised category, in
retrieval order); in particular the prompt never grows across cycles. -/
theorem C9_prompt_wholly_replaced (base : String) (a : Assistant)
    (cycles : List CycleEnv) :
    (runRefreshCycles base a cycles).instructions = a.instructions ∨
    ∃ m, summaryCats m ≠ [] ∧
      (runRefreshCycles base a cycles).instructions
        = base ++ (MEMORY_HEADER ++ concatBlocks ((summaryCats m).map renderBlock)) := by
  rcases runRefreshCycles_instructions base cycles a with h | ⟨m, hm, h⟩
  · left; exact h
  · right
    refine ⟨m, hm, ?_⟩
    rw [h, build_eq_appendix]
    simp [memoryAppendix, hm]

end Gumabot
